import Mathlib

/-!
Shallow embedding of the HistoriCam image-identification matching engine
(`src/services/vision/src/vision_service.py`, with the classification logic
shared verbatim by `src/services/api/src/vision_service.py`).

Modelling conventions:
* Python floats are embedded as exact numbers: `ℝ` where the code takes a
  square root (`np.linalg.norm`), `ℚ` for the purely arithmetical
  classification logic (comparisons, sums, division, rounding are exact
  rational operations).
* The in-memory index (a Python `dict` preserving insertion order) is a
  `List (String × List ℝ)` in iteration order.
* Fallible code paths are explicit: `numpy`'s shape error on `np.dot` becomes
  `Except RankError`, the potentially raising spots of `_classify_results`
  (`most_common(1)[0]` on an empty counter, division by a zero count) return
  `Option`, and the loader returns `Except LoadError`.
* External collaborators (the GCS download, `json.loads`) are parameters of
  the functions that call them, so only the repository's own control flow is
  fixed by the definitions.
-/

namespace HistoriCam

/-- A ranked neighbor as produced by `VisionService._compute_similarities`:
the dict `{'id': ..., 'building_id': ..., 'similarity': ...}`. -/
structure NeighborMatch (α : Type) where
  id : String
  building_id : String
  similarity : α
deriving DecidableEq

/-- The three-way `status` field of a classification result. -/
inductive MatchStatus : Type
  | confident
  | uncertain
  | no_match
deriving DecidableEq

/-- The dict returned by `VisionService._classify_results` (the `matches`
list is empty in the branches that do not produce one). -/
structure ClassificationResult (α : Type) where
  status : MatchStatus
  message : Option String
  building_id : Option String
  confidence : α
  matchList : List (String × α)
deriving DecidableEq

/-- Python's `round(x, 3)`: rounding to 3 decimal places, modelled with exact
arithmetic (`round` rounds halves up; the claims under study never sit on a
half-way value). -/
def round3 {α : Type} [LinearOrderedField α] [FloorRing α] (x : α) : α :=
  ((round (1000 * x) : ℤ) : α) / 1000

/-- The scan underlying `Counter(building_ids).most_common(1)[0][0]`: walk the
candidate list keeping the current best, replacing it only on a strictly
larger count.  `f` is the count function of the full list, so the result is
the first-encountered element of maximal count — exactly the behaviour of
`Counter.most_common`, whose stable sort preserves first-insertion order among
equal counts. -/
def goBest (f : String → ℕ) : List String → String → String
  | [], best => best
  | c :: rest, best => goBest f rest (if f best < f c then c else best)

/-- `Counter(l).most_common(1)[0][0]` on a list of building ids; `none` models
the `IndexError` Python would raise on an empty list. -/
def mostCommon : List String → Option String
  | [] => none
  | b :: rest => some (goBest (fun s => (b :: rest).count s) rest b)

/-- The majority-vote-and-average block that `_classify_results` duplicates
for its `confident` and `uncertain` branches: pick the most common building
id among `sel`, average the similarities of its members, round.  `none`
models the exceptions Python could raise (`IndexError` from `most_common` on
an empty selection, `ZeroDivisionError` from an empty average). -/
def voteResult {α : Type} [LinearOrderedField α] [FloorRing α]
    (st : MatchStatus) (msg : Option String)
    (sel : List (NeighborMatch α)) : Option (ClassificationResult α) :=
  match mostCommon (sel.map (·.building_id)) with
  | none => none
  | some w =>
    let sims := (sel.filter fun r => r.building_id = w).map (·.similarity)
    if sims.length = 0 then none
    else some
      { status := st
        message := msg
        building_id := some w
        confidence := round3 (sims.sum / (sims.length : α))
        matchList := sel.map fun r => (r.building_id, round3 r.similarity) }

/-- `VisionService._classify_results`: empty input short-circuits to
`no_match`; otherwise filter by the confidence threshold, fall back to the
backup threshold, and finally report the top similarity with `no_match`. -/
def classify_results {α : Type} [LinearOrderedField α] [FloorRing α]
    (results : List (NeighborMatch α)) (ct bt : α) :
    Option (ClassificationResult α) :=
  match results with
  | [] => some
      { status := .no_match
        message := some "No similar buildings found"
        building_id := none
        confidence := 0
        matchList := [] }
  | r0 :: _ =>
    let confident := results.filter fun r => ct ≤ r.similarity
    if confident.isEmpty then
      let backup := results.filter fun r => bt ≤ r.similarity
      if backup.isEmpty then
        some
          { status := .no_match
            message := some "No similar buildings found in database"
            building_id := none
            confidence := round3 r0.similarity
            matchList := [] }
      else voteResult .uncertain
        (some "Low confidence match - building might be nearby") backup
    else voteResult .confident none confident

/-- `np.dot` on two equal-length 1-D arrays (the truncation `zip` performs is
never reached: the caller raises on a length mismatch first). -/
def dotp (a b : List ℝ) : ℝ := ((a.zip b).map fun p => p.1 * p.2).sum

/-- `np.linalg.norm`: the L2 norm. -/
noncomputable def normL2 (v : List ℝ) : ℝ := Real.sqrt (dotp v v)

/-- `v / np.linalg.norm(v)`: unit normalization. -/
noncomputable def normalize (v : List ℝ) : List ℝ := v.map fun x => x / normL2 v

/-- The similarity the service stores for an index entry: dot product of the
unit-normalized query and the unit-normalized stored vector. -/
noncomputable def cosineSim (q v : List ℝ) : ℝ := dotp (normalize q) (normalize v)

/-- `image_id.split('_', 1)[0]`: the building id encoded as the part of an
image id before its first underscore (the whole id if there is none). -/
def building_of (image_id : String) : String :=
  ⟨image_id.data.takeWhile fun c => c ≠ '_'⟩

/-- The `(image_id, similarity)` pairs in index-iteration order, as built by
the loop of `_compute_similarities`. -/
noncomputable def simPairs (index : List (String × List ℝ)) (q : List ℝ) :
    List (String × ℝ) :=
  index.map fun p => (p.1, cosineSim q p.2)

/-- `sorted(similarities.items(), key=lambda x: x[1], reverse=True)`: a stable
descending sort on the similarity component. -/
noncomputable def sortPairs (l : List (String × ℝ)) : List (String × ℝ) :=
  l.mergeSort fun a b => decide (b.2 ≤ a.2)

/-- The result-dict construction of `_compute_similarities`. -/
def toNeighbor (p : String × ℝ) : NeighborMatch ℝ :=
  { id := p.1, building_id := building_of p.1, similarity := p.2 }

/-- The error `np.dot` raises when the query and a stored vector disagree in
length (the spec's `DimensionMismatchError`). -/
inductive RankError : Type
  | dimensionMismatch
deriving DecidableEq

/-- `VisionService._compute_similarities`: normalize the query, score every
index entry, sort descending (stably), keep the top `topK`, and package each
pair as a neighbor dict.  The dimension guard models the `ValueError` that
`np.dot` raises on the first stored vector whose length differs from the
query's: the call raises exactly when some stored vector mismatches. -/
noncomputable def compute_similarities (index : List (String × List ℝ))
    (topK : ℕ) (q : List ℝ) : Except RankError (List (NeighborMatch ℝ)) :=
  if index.all fun p => p.2.length = q.length then
    .ok (((sortPairs (simPairs index q)).take topK).map toNeighbor)
  else .error .dimensionMismatch

/-- `VisionService.identify_building`: embed the image via the external
provider (a parameter here), rank, classify.  The whole pipeline is a pure
function of the image bytes and the (immutable) index. -/
noncomputable def identify_building (embed : List ℕ → List ℝ)
    (index : List (String × List ℝ)) (topK : ℕ) (ct bt : ℝ)
    (image_bytes : List ℕ) : Except RankError (Option (ClassificationResult ℝ)) :=
  match compute_similarities index topK (embed image_bytes) with
  | .error e => .error e
  | .ok rs => .ok (classify_results rs ct bt)

/-- The failure modes of `_load_embeddings_from_gcs`: the storage client's
exception when the blob cannot be downloaded, and `json.loads`' exception on
a malformed line. -/
inductive LoadError : Type
  | unreachable
  | malformed
deriving DecidableEq

/-- Python's `str.strip()` whitespace test (space, tab, newline, carriage
return, vertical tab, form feed). -/
def pyIsSpace (c : Char) : Bool :=
  c = ' ' || c = '\t' || c = '\n' || c = '\r' || c = '\x0b' || c = '\x0c'

/-- Python's `str.strip()`: drop whitespace from both ends. -/
def pyStrip (s : String) : String :=
  ⟨((s.data.dropWhile pyIsSpace).reverse.dropWhile pyIsSpace).reverse⟩

/-- Python's `str.split("\n")` on the character list: split at every newline,
keeping empty segments, and producing `[""]` on empty input. -/
def splitNL : List Char → List (List Char)
  | [] => [[]]
  | c :: rest =>
    if c = '\n' then [] :: splitNL rest
    else
      match splitNL rest with
      | [] => [[c]]
      | s :: ss => (c :: s) :: ss

/-- `embeddings_json.strip().split("\n")`: the list of lines the loader
iterates over. -/
def pySplitLines (s : String) : List String :=
  (splitNL (pyStrip s).data).map fun cs => ⟨cs⟩

/-- `index[record["id"]] = ...`: dict insertion, overwriting in place when the
key already exists. -/
def dictInsert (idx : List (String × List ℚ)) (k : String) (v : List ℚ) :
    List (String × List ℚ) :=
  if idx.any fun p => p.1 = k then
    idx.map fun p => if p.1 = k then (k, v) else p
  else idx ++ [(k, v)]

/-- The line loop of `_load_embeddings_from_gcs`: skip empty lines, parse the
rest, abort the whole load on the first malformed record. -/
def loadLoop (parseRecord : String → Option (String × List ℚ)) :
    List String → List (String × List ℚ) →
    Except LoadError (List (String × List ℚ))
  | [], idx => .ok idx
  | line :: rest, idx =>
    if line = "" then loadLoop parseRecord rest idx
    else
      match parseRecord line with
      | none => .error .malformed
      | some r => loadLoop parseRecord rest (dictInsert idx r.1 r.2)

/-- `VisionService._load_embeddings_from_gcs` from the download onward: the
GCS client and `json.loads` are external libraries, passed in as the
downloaded text (`none` = download failed) and the per-line record parser
(`none` = `json.loads` raised).  The text is stripped and split on newlines
exactly as `embeddings_json.strip().split("\n")` does. -/
def load_embeddings_from_gcs (parseRecord : String → Option (String × List ℚ))
    (downloaded : Option String) : Except LoadError (List (String × List ℚ)) :=
  match downloaded with
  | none => .error .unreachable
  | some text => loadLoop parseRecord (pySplitLines text) []

/-- The ordering `no_match < uncertain < confident` used to state threshold
monotonicity. -/
def statusRank : MatchStatus → ℕ
  | .no_match => 0
  | .uncertain => 1
  | .confident => 2

/-- The largest value of `f` over a list (`0` on the empty list); used only to
characterise the scan of `goBest`. -/
def maxF (f : String → ℕ) (l : List String) : ℕ :=
  (l.map f).foldr max 0

/-! ## Lemmas about the majority-vote scan -/

theorem le_maxF (f : String → ℕ) {l : List String} {c : String} (hc : c ∈ l) :
    f c ≤ maxF f l := by
  induction l with
  | nil => cases hc
  | cons b rest ih =>
    rcases List.mem_cons.1 hc with h | h
    · subst h; exact le_max_left _ _
    · exact le_trans (ih h) (le_max_right _ _)

theorem goBest_mem (f : String → ℕ) :
    ∀ (l : List String) (best : String), goBest f l best ∈ best :: l
  | [], best => by simp [goBest]
  | c :: rest, best => by
    have h := goBest_mem f rest (if f best < f c then c else best)
    rcases List.mem_cons.1 h with h' | h'
    · rw [goBest, h']
      split <;> simp
    · rw [goBest]
      exact List.mem_cons_of_mem _ (List.mem_cons_of_mem _ h')

theorem goBest_count_le (f : String → ℕ) :
    ∀ (l : List String) (best : String), ∀ c ∈ best :: l, f c ≤ f (goBest f l best)
  | [], best => by
    intro c hc
    rcases List.mem_cons.1 hc with h | h
    · subst h; rw [goBest]
    · cases h
  | c0 :: rest, best => by
    intro c hc
    rw [goBest]
    have hnb : f best ≤ f (if f best < f c0 then c0 else best) ∧
        f c0 ≤ f (if f best < f c0 then c0 else best) := by
      split
      · exact ⟨le_of_lt (by assumption), le_refl _⟩
      · exact ⟨le_refl _, le_of_not_lt (by assumption)⟩
    have hhead := goBest_count_le f rest (if f best < f c0 then c0 else best)
      _ (List.mem_cons_self _ _)
    rcases List.mem_cons.1 hc with h | h
    · subst h; exact le_trans hnb.1 hhead
    · rcases List.mem_cons.1 h with h' | h'
      · subst h'; exact le_trans hnb.2 hhead
      · exact goBest_count_le f rest _ _ (List.mem_cons_of_mem _ h')

theorem goBest_eq_find (f : String → ℕ) :
    ∀ (l : List String) (best : String),
      (best :: l).find? (fun c => decide (maxF f (best :: l) ≤ f c)) =
        some (goBest f l best)
  | [], best => by
    simp [goBest, maxF]
  | c :: rest, best => by
    rw [goBest]
    by_cases h : f best < f c
    · rw [if_pos h]
      have hM : maxF f (best :: c :: rest) = maxF f (c :: rest) := by
        show max (f best) (maxF f (c :: rest)) = maxF f (c :: rest)
        exact max_eq_right (le_trans (le_of_lt h) (le_maxF f (List.mem_cons_self _ _)))
      have hbest : ¬(fun c' => decide (maxF f (best :: c :: rest) ≤ f c')) best = true := by
        simp only [decide_eq_true_eq, not_le, hM]
        exact lt_of_lt_of_le h (le_maxF f (List.mem_cons_self _ _))
      rw [@List.find?_cons_of_neg _ (fun c' => decide (maxF f (best :: c :: rest) ≤ f c'))
        best (c :: rest) hbest, hM]
      exact goBest_eq_find f rest c
    · rw [if_neg h]
      have hcb : f c ≤ f best := le_of_not_lt h
      have hM : maxF f (best :: c :: rest) = maxF f (best :: rest) := by
        show max (f best) (max (f c) (maxF f rest)) = max (f best) (maxF f rest)
        rcases le_total (f c) (maxF f rest) with h' | h'
        · rw [max_eq_right h']
        · rw [max_eq_left h', max_eq_left hcb, max_eq_left (le_trans h' hcb)]
      have ih := goBest_eq_find f rest best
      by_cases hb : maxF f (best :: rest) ≤ f best
      · rw [@List.find?_cons_of_pos _ (fun c' => decide (maxF f (best :: c :: rest) ≤ f c'))
          best (c :: rest) (by simpa [hM])]
        rw [@List.find?_cons_of_pos _ (fun c' => decide (maxF f (best :: rest) ≤ f c'))
          best rest (by simpa)] at ih
        exact ih
      · have hbf : ¬(fun c' => decide (maxF f (best :: c :: rest) ≤ f c')) best = true := by
          simp [hM, hb]
        have hcf : ¬(fun c' => decide (maxF f (best :: c :: rest) ≤ f c')) c = true := by
          simp only [decide_eq_true_eq, not_le, hM]
          exact lt_of_le_of_lt hcb (lt_of_not_le hb)
        rw [@List.find?_cons_of_neg _ (fun c' => decide (maxF f (best :: c :: rest) ≤ f c'))
          best (c :: rest) hbf]
        rw [@List.find?_cons_of_neg _ (fun c' => decide (maxF f (best :: c :: rest) ≤ f c'))
          c rest hcf]
        rw [@List.find?_cons_of_neg _ (fun c' => decide (maxF f (best :: rest) ≤ f c'))
          best rest (by simpa using hb)] at ih
        exact hM ▸ ih

theorem find?_first_index {α : Type} [DecidableEq α] (p : α → Bool) :
    ∀ (l : List α) (w : α), l.find? p = some w →
      ∀ b ∈ l, p b = true → l.indexOf w ≤ l.indexOf b
  | [], w => by intro h; cases h
  | c :: rest, w => by
    intro hf b hb hpb
    by_cases hc : p c = true
    · rw [List.find?_cons_of_pos _ hc] at hf
      cases hf
      simp [List.indexOf_cons_self]
    · rw [List.find?_cons_of_neg _ hc] at hf
      have hwc : w ≠ c := by
        intro h
        exact hc (h ▸ List.find?_some hf)
      have hbc : b ≠ c := by
        intro h
        exact hc (h ▸ hpb)
      rcases List.mem_cons.1 hb with h | h
      · exact absurd h hbc
      · rw [List.indexOf_cons_ne _ (Ne.symm hwc), List.indexOf_cons_ne _ (Ne.symm hbc)]
        exact Nat.succ_le_succ (find?_first_index p rest w hf b h hpb)

theorem mostCommon_eq_find (b : String) (rest : List String) :
    mostCommon (b :: rest) =
      (b :: rest).find? fun c =>
        decide (maxF ((b :: rest).count) (b :: rest) ≤ (b :: rest).count c) := by
  rw [mostCommon, goBest_eq_find]

theorem mostCommon_mem {l : List String} {w : String}
    (h : mostCommon l = some w) : w ∈ l := by
  cases l with
  | nil => cases h
  | cons b rest =>
    rw [mostCommon] at h
    cases h
    exact goBest_mem _ rest b

theorem mostCommon_count_le {l : List String} {w : String}
    (h : mostCommon l = some w) : ∀ b ∈ l, l.count b ≤ l.count w := by
  cases l with
  | nil => cases h
  | cons b0 rest =>
    rw [mostCommon] at h
    cases h
    exact goBest_count_le _ rest b0

theorem mostCommon_first {l : List String} {w : String}
    (h : mostCommon l = some w) :
    ∀ b ∈ l, l.count b = l.count w → l.indexOf w ≤ l.indexOf b := by
  cases l with
  | nil => cases h
  | cons b0 rest =>
    intro b hb hcount
    have hfind := mostCommon_eq_find b0 rest
    rw [h] at hfind
    have hpw := List.find?_some hfind.symm
    have hpb : (fun c => decide (maxF ((b0 :: rest).count) (b0 :: rest) ≤
        (b0 :: rest).count c)) b = true := by
      simp only [decide_eq_true_eq] at hpw ⊢
      exact hcount ▸ hpw
    exact find?_first_index _ _ _ hfind.symm b hb hpb

/-! ## Lemmas about `voteResult` and `classify_results` -/

theorem voteResult_eq {α : Type} [LinearOrderedField α] [FloorRing α]
    (st : MatchStatus) (msg : Option String) (sel : List (NeighborMatch α))
    (w : String) (hw : mostCommon (sel.map fun r => r.building_id) = some w) :
    voteResult st msg sel = some
      { status := st
        message := msg
        building_id := some w
        confidence := round3
          ((((sel.filter fun r => r.building_id = w).map fun r => r.similarity).sum) /
            ((((sel.filter fun r => r.building_id = w).map fun r => r.similarity)).length : α))
        matchList := sel.map fun r => (r.building_id, round3 r.similarity) } := by
  have hmem : w ∈ sel.map fun r => r.building_id := mostCommon_mem hw
  obtain ⟨r, hr, hrw⟩ := List.mem_map.1 hmem
  have hfil : r ∈ sel.filter fun r => r.building_id = w :=
    List.mem_filter.2 ⟨hr, by simpa using hrw⟩
  have hlen : ¬((sel.filter fun r => r.building_id = w).map fun r => r.similarity).length = 0 := by
    simp only [List.length_map, List.length_eq_zero]
    exact List.ne_nil_of_mem hfil
  simp only [voteResult, hw]
  rw [if_neg hlen]

theorem voteResult_isSome {α : Type} [LinearOrderedField α] [FloorRing α]
    (st : MatchStatus) (msg : Option String) (sel : List (NeighborMatch α))
    (hne : sel ≠ []) : ∃ res, voteResult st msg sel = some res ∧ res.status = st := by
  cases sel with
  | nil => exact absurd rfl hne
  | cons s0 tl =>
    have hw : ∃ w, mostCommon ((s0 :: tl).map fun r => r.building_id) = some w := by
      rw [List.map_cons, mostCommon]
      exact ⟨_, rfl⟩
    obtain ⟨w, hw⟩ := hw
    exact ⟨_, voteResult_eq st msg (s0 :: tl) w hw, rfl⟩

theorem classify_results_empty {α : Type} [LinearOrderedField α] [FloorRing α] (ct bt : α) :
    classify_results ([] : List (NeighborMatch α)) ct bt = some
      { status := .no_match
        message := some "No similar buildings found"
        building_id := none
        confidence := 0
        matchList := [] } := rfl

theorem classify_results_confident {α : Type} [LinearOrderedField α] [FloorRing α]
    (results : List (NeighborMatch α)) (ct bt : α)
    (hc : results.filter (fun r => ct ≤ r.similarity) ≠ []) :
    classify_results results ct bt =
      voteResult .confident none (results.filter fun r => ct ≤ r.similarity) := by
  cases results with
  | nil => exact absurd rfl hc
  | cons r0 rest =>
    have h : ((r0 :: rest).filter fun r => ct ≤ r.similarity).isEmpty = false := by
      simpa [List.isEmpty_iff] using hc
    simp only [classify_results, h, Bool.false_eq_true, if_false]

theorem classify_results_uncertain {α : Type} [LinearOrderedField α] [FloorRing α]
    (results : List (NeighborMatch α)) (ct bt : α)
    (hc : results.filter (fun r => ct ≤ r.similarity) = [])
    (hb : results.filter (fun r => bt ≤ r.similarity) ≠ []) :
    classify_results results ct bt =
      voteResult .uncertain (some "Low confidence match - building might be nearby")
        (results.filter fun r => bt ≤ r.similarity) := by
  cases results with
  | nil => exact absurd rfl hb
  | cons r0 rest =>
    have h1 : ((r0 :: rest).filter fun r => ct ≤ r.similarity).isEmpty = true := by
      simp [List.isEmpty_iff, hc]
    have h2 : ((r0 :: rest).filter fun r => bt ≤ r.similarity).isEmpty = false := by
      simpa [List.isEmpty_iff] using hb
    simp only [classify_results, h1, h2, if_true, Bool.false_eq_true, if_false]

theorem classify_results_nomatch {α : Type} [LinearOrderedField α] [FloorRing α]
    (r0 : NeighborMatch α) (rest : List (NeighborMatch α)) (ct bt : α)
    (hc : (r0 :: rest).filter (fun r => ct ≤ r.similarity) = [])
    (hb : (r0 :: rest).filter (fun r => bt ≤ r.similarity) = []) :
    classify_results (r0 :: rest) ct bt = some
      { status := .no_match
        message := some "No similar buildings found in database"
        building_id := none
        confidence := round3 r0.similarity
        matchList := [] } := by
  have h1 : ((r0 :: rest).filter fun r => ct ≤ r.similarity).isEmpty = true := by
    simp [List.isEmpty_iff, hc]
  have h2 : ((r0 :: rest).filter fun r => bt ≤ r.similarity).isEmpty = true := by
    simp [List.isEmpty_iff, hb]
  simp only [classify_results, h1, h2, if_true]

theorem classify_results_isSome {α : Type} [LinearOrderedField α] [FloorRing α]
    (results : List (NeighborMatch α)) (ct bt : α) :
    ∃ r, classify_results results ct bt = some r := by
  cases results with
  | nil => exact ⟨_, classify_results_empty ct bt⟩
  | cons r0 rest =>
    by_cases hc : (r0 :: rest).filter (fun r => ct ≤ r.similarity) = []
    · by_cases hb : (r0 :: rest).filter (fun r => bt ≤ r.similarity) = []
      · exact ⟨_, classify_results_nomatch r0 rest ct bt hc hb⟩
      · obtain ⟨res, hres, _⟩ := voteResult_isSome .uncertain
          (some "Low confidence match - building might be nearby")
          ((r0 :: rest).filter fun r => bt ≤ r.similarity) hb
        exact ⟨res, (classify_results_uncertain _ ct bt hc hb).trans hres⟩
    · obtain ⟨res, hres, _⟩ := voteResult_isSome .confident none
        ((r0 :: rest).filter fun r => ct ≤ r.similarity) hc
      exact ⟨res, (classify_results_confident _ ct bt hc).trans hres⟩

theorem mostCommon_isSome {l : List String} (hne : l ≠ []) :
    ∃ w, mostCommon l = some w := by
  cases l with
  | nil => exact absurd rfl hne
  | cons b rest => exact ⟨_, by rw [mostCommon]⟩

theorem filter_threshold_mono {α : Type} [LinearOrderedField α]
    (results : List (NeighborMatch α)) {ct ct' : α} (hle : ct ≤ ct')
    (h : results.filter (fun r => ct' ≤ r.similarity) ≠ []) :
    results.filter (fun r => ct ≤ r.similarity) ≠ [] := by
  obtain ⟨r, hr⟩ := List.exists_mem_of_ne_nil _ h
  obtain ⟨hr1, hr2⟩ := List.mem_filter.1 hr
  intro hnil
  have hmem : r ∈ results.filter fun r => ct ≤ r.similarity :=
    List.mem_filter.2 ⟨hr1, by
      simp only [decide_eq_true_eq] at hr2 ⊢
      exact le_trans hle hr2⟩
  rw [hnil] at hmem
  cases hmem

/-! ## The claim theorems about the classifier -/

/-- C1: on a non-empty ranked match list whose confident subset (similarity ≥
`ct`) is non-empty, `classify_results` returns `status = confident`, with
`building_id` the building of highest occurrence count in the confident
subset (ties broken in favour of the first-encountered building in ranked
order), `confidence` the rounded arithmetic mean of the winner's
similarities in the confident subset, and the `matches` field listing all
confident entries. -/
theorem claim_C1_confident_majority (results : List (NeighborMatch ℚ)) (ct bt : ℚ)
    (_hne : results ≠ [])
    (hc : results.filter (fun r => ct ≤ r.similarity) ≠ []) :
    let confident := results.filter fun r => ct ≤ r.similarity
    let ids := confident.map fun r => r.building_id
    ∃ w,
      classify_results results ct bt = some
        { status := .confident
          message := none
          building_id := some w
          confidence := round3
            ((((confident.filter fun r => r.building_id = w).map fun r => r.similarity).sum) /
              ((((confident.filter fun r => r.building_id = w).map fun r => r.similarity)).length : ℚ))
          matchList := confident.map fun r => (r.building_id, round3 r.similarity) } ∧
      w ∈ ids ∧
      (∀ b ∈ ids, ids.count b ≤ ids.count w) ∧
      (∀ b ∈ ids, ids.count b = ids.count w → ids.indexOf w ≤ ids.indexOf b) := by
  intro confident ids
  obtain ⟨w, hw⟩ : ∃ w, mostCommon ids = some w := by
    apply mostCommon_isSome
    simp only [ids, confident, ne_eq, List.map_eq_nil_iff]
    exact hc
  refine ⟨w, ?_, mostCommon_mem hw, mostCommon_count_le hw, mostCommon_first hw⟩
  rw [classify_results_confident results ct bt hc]
  exact voteResult_eq .confident none confident w hw

/-- Witness for C1: building `A` three times and building `B` twice above the
threshold; the decidable conjunct checks that the returned `building_id`
is indeed `A`. -/
theorem claim_C1_confident_majority_witness :
    (([⟨"A_1", "A", 9⟩, ⟨"A_2", "A", 8⟩, ⟨"A_3", "A", 8⟩, ⟨"B_1", "B", 8⟩,
        ⟨"B_2", "B", 8⟩] : List (NeighborMatch ℚ)) ≠ [] ∧
      ([⟨"A_1", "A", 9⟩, ⟨"A_2", "A", 8⟩, ⟨"A_3", "A", 8⟩, ⟨"B_1", "B", 8⟩,
        ⟨"B_2", "B", 8⟩] : List (NeighborMatch ℚ)).filter
          (fun r => (7 : ℚ) ≤ r.similarity) ≠ [] ∧
      ((classify_results ([⟨"A_1", "A", 9⟩, ⟨"A_2", "A", 8⟩, ⟨"A_3", "A", 8⟩,
          ⟨"B_1", "B", 8⟩, ⟨"B_2", "B", 8⟩] : List (NeighborMatch ℚ)) 7 4).bind
        ClassificationResult.building_id = some "A")) ∧
    (let confident := ([⟨"A_1", "A", 9⟩, ⟨"A_2", "A", 8⟩, ⟨"A_3", "A", 8⟩,
        ⟨"B_1", "B", 8⟩, ⟨"B_2", "B", 8⟩] : List (NeighborMatch ℚ)).filter
          fun r => (7 : ℚ) ≤ r.similarity
      let ids := confident.map fun r => r.building_id
      ∃ w,
        classify_results ([⟨"A_1", "A", 9⟩, ⟨"A_2", "A", 8⟩, ⟨"A_3", "A", 8⟩,
            ⟨"B_1", "B", 8⟩, ⟨"B_2", "B", 8⟩] : List (NeighborMatch ℚ)) 7 4 = some
          { status := .confident
            message := none
            building_id := some w
            confidence := round3
              ((((confident.filter fun r => r.building_id = w).map fun r => r.similarity).sum) /
                ((((confident.filter fun r => r.building_id = w).map fun r => r.similarity)).length : ℚ))
            matchList := confident.map fun r => (r.building_id, round3 r.similarity) } ∧
        w ∈ ids ∧
        (∀ b ∈ ids, ids.count b ≤ ids.count w) ∧
        (∀ b ∈ ids, ids.count b = ids.count w → ids.indexOf w ≤ ids.indexOf b)) :=
  ⟨⟨by decide, by decide, by decide⟩,
    claim_C1_confident_majority _ 7 4 (by decide) (by decide)⟩

/-- C10: `classify_results` is total on well-formed inputs — every branch's
majority vote is over a non-empty collection and every average divides by a
non-zero count, so the model never hits one of its `none` (exception)
outcomes. -/
theorem claim_C10_classify_total (results : List (NeighborMatch ℚ)) (ct bt : ℚ) :
    ∃ r, classify_results results ct bt = some r :=
  classify_results_isSome results ct bt

/-- C6: with the matches and the backup threshold fixed, raising the
confidence threshold can only move the status downward in the order
`no_match < uncertain < confident`. -/
theorem claim_C6_threshold_antitone (results : List (NeighborMatch ℚ)) (ct ct' bt : ℚ)
    (hne : results ≠ []) (hle : ct ≤ ct') :
    ∃ r r', classify_results results ct bt = some r ∧
      classify_results results ct' bt = some r' ∧
      statusRank r'.status ≤ statusRank r.status := by
  obtain ⟨r0, rest, rfl⟩ : ∃ r0 rest, results = r0 :: rest := by
    cases results with
    | nil => exact absurd rfl hne
    | cons r0 rest => exact ⟨r0, rest, rfl⟩
  by_cases hc' : (r0 :: rest).filter (fun r => ct' ≤ r.similarity) = []
  · by_cases hb : (r0 :: rest).filter (fun r => bt ≤ r.similarity) = []
    · obtain ⟨r, hr⟩ := classify_results_isSome (r0 :: rest) ct bt
      exact ⟨r, _, hr, classify_results_nomatch r0 rest ct' bt hc' hb,
        Nat.zero_le _⟩
    · obtain ⟨res', hres', hst'⟩ := voteResult_isSome .uncertain
        (some "Low confidence match - building might be nearby") _ hb
      by_cases hc : (r0 :: rest).filter (fun r => ct ≤ r.similarity) = []
      · obtain ⟨res, hres, hst⟩ := voteResult_isSome .uncertain
          (some "Low confidence match - building might be nearby") _ hb
        exact ⟨res, res', (classify_results_uncertain _ ct bt hc hb).trans hres,
          (classify_results_uncertain _ ct' bt hc' hb).trans hres',
          by rw [hst, hst']⟩
      · obtain ⟨res, hres, hst⟩ := voteResult_isSome .confident none _ hc
        exact ⟨res, res', (classify_results_confident _ ct bt hc).trans hres,
          (classify_results_uncertain _ ct' bt hc' hb).trans hres',
          by rw [hst, hst']; decide⟩
  · have hc : (r0 :: rest).filter (fun r => ct ≤ r.similarity) ≠ [] :=
      filter_threshold_mono _ hle hc'
    obtain ⟨res, hres, hst⟩ := voteResult_isSome .confident none _ hc
    obtain ⟨res', hres', hst'⟩ := voteResult_isSome .confident none _ hc'
    exact ⟨res, res', (classify_results_confident _ ct bt hc).trans hres,
      (classify_results_confident _ ct' bt hc').trans hres', by rw [hst, hst']⟩

/-- Witness for C6 at a concrete input where the status drops from
`confident` to `uncertain`. -/
theorem claim_C6_threshold_antitone_witness :
    (([⟨"A_1", "A", 5⟩] : List (NeighborMatch ℚ)) ≠ [] ∧ (2 : ℚ) ≤ 7) ∧
    (∃ r r', classify_results ([⟨"A_1", "A", 5⟩] : List (NeighborMatch ℚ)) 2 4 = some r ∧
      classify_results ([⟨"A_1", "A", 5⟩] : List (NeighborMatch ℚ)) 7 4 = some r' ∧
      statusRank r'.status ≤ statusRank r.status) :=
  ⟨⟨by decide, by decide⟩,
    claim_C6_threshold_antitone _ 2 7 4 (by decide) (by decide)⟩

/-- C7: on a non-empty match list where no similarity reaches the backup
threshold (under the spec's §4.3 configuration precondition
`backup_threshold ≤ confidence_threshold`), `classify_results` reports
`no_match` with a null building id and the top match's rounded similarity as
confidence. -/
theorem claim_C7_below_backup (r0 : NeighborMatch ℚ) (rest : List (NeighborMatch ℚ))
    (ct bt : ℚ) (hbt : ∀ r ∈ r0 :: rest, r.similarity < bt) (hct : bt ≤ ct) :
    classify_results (r0 :: rest) ct bt = some
      { status := .no_match
        message := some "No similar buildings found in database"
        building_id := none
        confidence := round3 r0.similarity
        matchList := [] } := by
  have hb : (r0 :: rest).filter (fun r => bt ≤ r.similarity) = [] := by
    rw [List.filter_eq_nil_iff]
    intro r hr
    simpa using not_le.2 (hbt r hr)
  have hc : (r0 :: rest).filter (fun r => ct ≤ r.similarity) = [] := by
    rw [List.filter_eq_nil_iff]
    intro r hr
    simpa using not_le.2 (lt_of_lt_of_le (hbt r hr) hct)
  exact classify_results_nomatch r0 rest ct bt hc hb

/-- Witness for C7 at a concrete input. -/
theorem claim_C7_below_backup_witness :
    ((∀ r ∈ ([⟨"A_1", "A", 1⟩] : List (NeighborMatch ℚ)), r.similarity < 4) ∧
      (4 : ℚ) ≤ 7) ∧
    classify_results ([⟨"A_1", "A", 1⟩] : List (NeighborMatch ℚ)) 7 4 = some
      { status := .no_match
        message := some "No similar buildings found in database"
        building_id := none
        confidence := round3 (1 : ℚ)
        matchList := [] } :=
  ⟨⟨by decide, by decide⟩,
    claim_C7_below_backup ⟨"A_1", "A", 1⟩ [] 7 4 (by decide) (by decide)⟩

/-! ## Lemmas about the dot product and cosine similarity -/

theorem dotp_nil_left (b : List ℝ) : dotp [] b = 0 := rfl

theorem dotp_nil_right (a : List ℝ) : dotp a [] = 0 := by
  cases a <;> rfl

theorem dotp_cons (x y : ℝ) (a b : List ℝ) :
    dotp (x :: a) (y :: b) = x * y + dotp a b := rfl

theorem dotp_self_nonneg : ∀ v : List ℝ, 0 ≤ dotp v v
  | [] => le_refl 0
  | x :: a => by
    rw [dotp_cons]
    exact add_nonneg (mul_self_nonneg x) (dotp_self_nonneg a)

theorem dotp_self_pos {v : List ℝ} (hv : ∃ x ∈ v, x ≠ 0) : 0 < dotp v v := by
  induction v with
  | nil => exact absurd hv (by simp)
  | cons x a ih =>
    rw [dotp_cons]
    by_cases hx : x = 0
    · subst hx
      have ha : ∃ y ∈ a, y ≠ 0 := by simpa using hv
      simpa using add_pos_of_nonneg_of_pos (mul_self_nonneg (0 : ℝ)) (ih ha)
    · exact add_pos_of_pos_of_nonneg (mul_self_pos.2 hx) (dotp_self_nonneg a)

theorem dotp_sq_le : ∀ a b : List ℝ, dotp a b ^ 2 ≤ dotp a a * dotp b b
  | [], b => by
    rw [dotp_nil_left, dotp_nil_left]
    simp
  | x :: a, [] => by
    rw [dotp_nil_right, dotp_nil_right]
    simp
  | x :: a, y :: b => by
    have ih := dotp_sq_le a b
    have hda := dotp_self_nonneg a
    have hdb := dotp_self_nonneg b
    rw [dotp_cons, dotp_cons, dotp_cons]
    rcases eq_or_lt_of_le hda with hz | hpos
    · have hd0 : dotp a b = 0 := by
        have h1 : dotp a b ^ 2 ≤ 0 := by
          calc dotp a b ^ 2 ≤ dotp a a * dotp b b := ih
          _ = 0 := by rw [← hz]; ring
        exact sq_eq_zero_iff.1
          (le_antisymm h1 (sq_nonneg _))
      rw [hd0, ← hz]
      nlinarith [mul_self_nonneg x, mul_self_nonneg y, mul_nonneg (mul_self_nonneg x) hdb]
    · nlinarith [sq_nonneg (y * dotp a a - x * dotp a b),
        mul_nonneg (add_nonneg (mul_self_nonneg x) hda)
          (sub_nonneg.2 ih), hpos]

theorem dotp_map_div (a b : List ℝ) (c d : ℝ) :
    dotp (a.map fun x => x / c) (b.map fun x => x / d) = dotp a b / (c * d) := by
  unfold dotp
  rw [List.zip_map]
  rw [List.map_map]
  have hcongr : ∀ l : List (ℝ × ℝ),
      (l.map ((fun p => p.1 * p.2) ∘ Prod.map (fun x => x / c) fun x => x / d)) =
        l.map fun p => (p.1 * p.2) * (c * d)⁻¹ := by
    intro l
    apply List.map_congr_left
    intro p _
    show p.1 / c * (p.2 / d) = p.1 * p.2 * (c * d)⁻¹
    rw [div_mul_div_comm, div_eq_mul_inv]
  rw [hcongr, List.sum_map_mul_right, div_eq_mul_inv]

theorem cosineSim_eq (q v : List ℝ) :
    cosineSim q v = dotp q v / (normL2 q * normL2 v) := by
  unfold cosineSim normalize
  exact dotp_map_div q v (normL2 q) (normL2 v)

theorem normL2_nonneg (v : List ℝ) : 0 ≤ normL2 v := Real.sqrt_nonneg _

theorem normL2_mul_self (v : List ℝ) : normL2 v * normL2 v = dotp v v :=
  Real.mul_self_sqrt (dotp_self_nonneg v)

theorem cosineSim_le_one (q v : List ℝ) : cosineSim q v ≤ 1 := by
  rw [cosineSim_eq]
  rcases eq_or_lt_of_le (mul_nonneg (normL2_nonneg q) (normL2_nonneg v)) with hz | hpos
  · rw [← hz, div_zero]
    exact zero_le_one
  · rw [div_le_one hpos]
    have h1 : dotp q v ≤ |dotp q v| := le_abs_self _
    have h2 : |dotp q v| = Real.sqrt (dotp q v ^ 2) := (Real.sqrt_sq_eq_abs _).symm
    have h3 : Real.sqrt (dotp q v ^ 2) ≤ Real.sqrt (dotp q q * dotp v v) :=
      Real.sqrt_le_sqrt (dotp_sq_le q v)
    have h4 : Real.sqrt (dotp q q * dotp v v) = normL2 q * normL2 v :=
      Real.sqrt_mul (dotp_self_nonneg q) _
    calc dotp q v ≤ |dotp q v| := h1
    _ = Real.sqrt (dotp q v ^ 2) := h2
    _ ≤ Real.sqrt (dotp q q * dotp v v) := h3
    _ = normL2 q * normL2 v := h4

theorem cosineSim_self {v : List ℝ} (hv : ∃ x ∈ v, x ≠ 0) : cosineSim v v = 1 := by
  rw [cosineSim_eq, normL2_mul_self]
  exact div_self (ne_of_gt (dotp_self_pos hv))

/-! ## Lemmas about the stable descending sort of `_compute_similarities` -/

theorem sortLe_trans (a b c : String × ℝ)
    (hab : decide (b.2 ≤ a.2) = true) (hbc : decide (c.2 ≤ b.2) = true) :
    decide (c.2 ≤ a.2) = true := by
  simp only [decide_eq_true_eq] at *
  exact le_trans hbc hab

theorem sortLe_total (a b : String × ℝ) :
    (decide (b.2 ≤ a.2) || decide (a.2 ≤ b.2)) = true := by
  simp only [Bool.or_eq_true, decide_eq_true_eq]
  exact le_total b.2 a.2

theorem sortPairs_sorted (l : List (String × ℝ)) :
    (sortPairs l).Pairwise fun a b => b.2 ≤ a.2 := by
  have h := @List.sorted_mergeSort (String × ℝ) (fun a b => decide (b.2 ≤ a.2))
    sortLe_trans sortLe_total l
  exact h.imp fun hab => by simpa using hab

theorem sortPairs_perm (l : List (String × ℝ)) : (sortPairs l).Perm l :=
  List.mergeSort_perm l _

theorem sortPairs_filter_eq (l : List (String × ℝ)) (s : ℝ) :
    (sortPairs l).filter (fun p => p.2 = s) = l.filter fun p => p.2 = s := by
  have hkeys : ∀ a ∈ (l.filter fun p => p.2 = s), a.2 = s := fun a ha => by
    simpa using (List.mem_filter.1 ha).2
  have hpw : (l.filter fun p => p.2 = s).Pairwise
      fun a b => decide (b.2 ≤ a.2) = true := by
    apply List.pairwise_of_forall_mem_list
    intro a ha b hb
    simp only [decide_eq_true_eq, hkeys a ha, hkeys b hb, le_refl]
  have hsub : (l.filter fun p => p.2 = s).Sublist (sortPairs l) :=
    List.sublist_mergeSort sortLe_trans sortLe_total hpw (List.filter_sublist l)
  have hsub2 : (l.filter fun p => p.2 = s).Sublist
      ((sortPairs l).filter fun p => p.2 = s) := by
    have h := hsub.filter fun p => decide (p.2 = s)
    rw [List.filter_filter] at h
    simp only [Bool.and_self] at h
    exact h
  have hlen : ((sortPairs l).filter fun p => p.2 = s).length =
      (l.filter fun p => p.2 = s).length :=
    ((sortPairs_perm l).filter _).length_eq
  exact (hsub2.eq_of_length hlen.symm).symm

/-- Unfolding `_compute_similarities` when every stored vector matches the
query's length. -/
theorem compute_similarities_ok (index : List (String × List ℝ)) (k : ℕ)
    (q : List ℝ) (hd : ∀ p ∈ index, p.2.length = q.length) :
    compute_similarities index k q =
      .ok (((sortPairs (simPairs index q)).take k).map toNeighbor) := by
  unfold compute_similarities
  rw [if_pos]
  rw [List.all_eq_true]
  intro p hp
  simpa using hd p hp

theorem sortPairs_of_const {l : List (String × ℝ)} {s : ℝ}
    (h : ∀ p ∈ l, p.2 = s) : sortPairs l = l := by
  have h1 : l.filter (fun p => p.2 = s) = l :=
    List.filter_eq_self.2 fun a ha => by simpa using h a ha
  have h2 : (sortPairs l).filter (fun p => p.2 = s) = sortPairs l :=
    List.filter_eq_self.2 fun a ha => by
      simpa using h a ((sortPairs_perm l).mem_iff.1 ha)
  have h3 := sortPairs_filter_eq l s
  rw [h1, h2] at h3
  exact h3

/-! ## The claim theorems about the ranker -/

/-- C2: against an index whose vectors all match the query's length, the
ranker returns (without error) a list of length `min topK index.size`,
sorted by similarity descending, in which every entry's similarity is the
dot product of the unit-normalized query with the unit-normalized indexed
vector, and whose equal-similarity entries appear as a sublist of the
index-iteration-order scoring (the sort is stable). -/
theorem claim_C2_rank_shape (index : List (String × List ℝ)) (q : List ℝ) (k : ℕ)
    (hd : ∀ p ∈ index, p.2.length = q.length) :
    ∃ rs, compute_similarities index k q = .ok rs ∧
      rs.length = min k index.length ∧
      rs.Pairwise (fun a b => b.similarity ≤ a.similarity) ∧
      (∀ m ∈ rs, ∃ v, (m.id, v) ∈ index ∧
        m.similarity = dotp (normalize q) (normalize v) ∧
        m.building_id = building_of m.id) ∧
      (∀ s : ℝ, (rs.filter fun m => m.similarity = s).Sublist
        (((simPairs index q).map toNeighbor).filter fun m => m.similarity = s)) := by
  refine ⟨_, compute_similarities_ok index k q hd, ?_, ?_, ?_, ?_⟩
  · rw [List.length_map, List.length_take]
    show min k (sortPairs (simPairs index q)).length = min k index.length
    rw [sortPairs, List.length_mergeSort, simPairs, List.length_map]
  · rw [List.pairwise_map]
    exact ((sortPairs_sorted (simPairs index q)).sublist
      (List.take_sublist k _)).imp fun h => h
  · intro m hm
    obtain ⟨p, hp, hpm⟩ := List.mem_map.1 hm
    have hpL : p ∈ sortPairs (simPairs index q) := List.mem_of_mem_take hp
    have hpS : p ∈ simPairs index q := (sortPairs_perm _).mem_iff.1 hpL
    obtain ⟨p0, hp0, hp0eq⟩ := List.mem_map.1 hpS
    refine ⟨p0.2, ?_, ?_, ?_⟩
    · have hid : m.id = p0.1 := by rw [← hpm, ← hp0eq]; rfl
      rw [hid, Prod.mk.eta]
      exact hp0
    · have : m.similarity = p.2 := by rw [← hpm]; rfl
      rw [this, ← hp0eq]
      rfl
    · rw [← hpm]
      rfl
  · intro s
    have h1 : (((sortPairs (simPairs index q)).take k).map toNeighbor).filter
        (fun m => m.similarity = s) =
        (((sortPairs (simPairs index q)).take k).filter fun p => p.2 = s).map
          toNeighbor :=
      List.filter_map toNeighbor _
    have h2 : ((simPairs index q).map toNeighbor).filter (fun m => m.similarity = s) =
        ((simPairs index q).filter fun p => p.2 = s).map toNeighbor :=
      List.filter_map toNeighbor _
    rw [h1, h2]
    apply List.Sublist.map
    have h3 : (((sortPairs (simPairs index q)).take k).filter fun p => p.2 = s).Sublist
        ((sortPairs (simPairs index q)).filter fun p => p.2 = s) :=
      (List.take_sublist k _).filter _
    rw [sortPairs_filter_eq] at h3
    exact h3

/-- Witness for C2 at a one-entry index. -/
theorem claim_C2_rank_shape_witness :
    (∀ p ∈ [("a_1", [(1:ℝ), 0])], p.2.length = [(1:ℝ), 0].length) ∧
    (∃ rs, compute_similarities [("a_1", [(1:ℝ), 0])] 5 [1, 0] = .ok rs ∧
      rs.length = min 5 ([("a_1", [(1:ℝ), 0])]).length ∧
      rs.Pairwise (fun a b => b.similarity ≤ a.similarity) ∧
      (∀ m ∈ rs, ∃ v, (m.id, v) ∈ [("a_1", [(1:ℝ), 0])] ∧
        m.similarity = dotp (normalize [1, 0]) (normalize v) ∧
        m.building_id = building_of m.id) ∧
      (∀ s : ℝ, (rs.filter fun m => m.similarity = s).Sublist
        (((simPairs [("a_1", [(1:ℝ), 0])] [1, 0]).map toNeighbor).filter
          fun m => m.similarity = s))) :=
  ⟨by simp, claim_C2_rank_shape [("a_1", [(1:ℝ), 0])] [1, 0] 5 (by simp)⟩

/-- C3: against a non-empty index of uniform vector dimension, the ranker
raises the dimension-mismatch error exactly when the query's length differs
from that dimension, and returns normally when it matches. -/
theorem claim_C3_dimension_check (index : List (String × List ℝ)) (q : List ℝ)
    (k : ℕ) (d : ℕ) (hne : index ≠ []) (hd : ∀ p ∈ index, p.2.length = d) :
    (q.length ≠ d → compute_similarities index k q = .error .dimensionMismatch) ∧
    (q.length = d → ∃ rs, compute_similarities index k q = .ok rs) := by
  constructor
  · intro hq
    unfold compute_similarities
    rw [if_neg]
    intro hall
    rw [List.all_eq_true] at hall
    obtain ⟨p, hp⟩ := List.exists_mem_of_ne_nil _ hne
    have h1 := hall p hp
    simp only [decide_eq_true_eq] at h1
    exact hq (h1.symm.trans (hd p hp))
  · intro hq
    exact ⟨_, compute_similarities_ok index k q fun p hp => (hd p hp).trans hq.symm⟩

/-- Witness for C3: a two-dimensional one-entry index; both the mismatching
and the matching direction of the statement are obtained from the theorem. -/
theorem claim_C3_dimension_check_witness :
    (([("a_1", [(1:ℝ), 0])] : List (String × List ℝ)) ≠ [] ∧
      (∀ p ∈ [("a_1", [(1:ℝ), 0])], p.2.length = 2)) ∧
    ((([(1:ℝ)]).length ≠ 2 →
      compute_similarities [("a_1", [(1:ℝ), 0])] 5 [1] = .error .dimensionMismatch) ∧
      (([(1:ℝ)]).length = 2 →
        ∃ rs, compute_similarities [("a_1", [(1:ℝ), 0])] 5 [1] = .ok rs)) :=
  ⟨⟨List.cons_ne_nil _ _, by simp⟩,
    claim_C3_dimension_check [("a_1", [(1:ℝ), 0])] [1] 5 2
      (List.cons_ne_nil _ _) (by simp)⟩

/-- C5: ranking against an empty index yields an empty list (not an error),
and classifying an empty match list yields `no_match` with a null building
id and confidence `0`. -/
theorem claim_C5_empty_index :
    (∀ (q : List ℝ) (k : ℕ), compute_similarities [] k q = .ok []) ∧
    (∀ ct bt : ℚ, classify_results ([] : List (NeighborMatch ℚ)) ct bt = some
      { status := .no_match
        message := some "No similar buildings found"
        building_id := none
        confidence := 0
        matchList := [] }) := by
  refine ⟨fun q k => ?_, fun ct bt => classify_results_empty ct bt⟩
  have h := compute_similarities_ok [] k q (by simp)
  simpa [simPairs, sortPairs] using h

/-- C8 (amended): ranking a query equal to a non-zero indexed vector returns
a top match whose similarity is exactly `1` (the exact-arithmetic counterpart
of "≈ 1.0 within floating-point tolerance"), and when no other index entry
scores similarity `1` against that query, the top match carries the indexed
vector's id.  (As stated, the claim fails when another entry with an
earlier iteration position is positively parallel to the query: the stable
sort then ranks that entry first — see the counterexample.) -/
theorem claim_C8_self_similarity (index : List (String × List ℝ))
    (id0 : String) (v : List ℝ) (k : ℕ)
    (hmem : (id0, v) ∈ index) (hv : ∃ x ∈ v, x ≠ 0)
    (hd : ∀ p ∈ index, p.2.length = v.length) (hk : 1 ≤ k) :
    ∃ rs m, compute_similarities index k v = .ok rs ∧ rs.head? = some m ∧
      m.similarity = 1 ∧
      ((∀ p ∈ index, cosineSim v p.2 = 1 → p.1 = id0) → m.id = id0) := by
  have hok := compute_similarities_ok index k v hd
  have hperm : (sortPairs (simPairs index v)).Perm (simPairs index v) :=
    sortPairs_perm _
  have hlen : (sortPairs (simPairs index v)).length = index.length := by
    rw [hperm.length_eq, simPairs, List.length_map]
  obtain ⟨h0, t, hLt⟩ : ∃ h0 t, sortPairs (simPairs index v) = h0 :: t := by
    cases hcase : sortPairs (simPairs index v) with
    | nil =>
      rw [hcase] at hlen
      rw [List.length_eq_zero.1 hlen.symm] at hmem
      cases hmem
    | cons a b => exact ⟨a, b, rfl⟩
  obtain ⟨k', rfl⟩ : ∃ k', k = k' + 1 := ⟨k - 1, by omega⟩
  have hmemL : h0 ∈ simPairs index v :=
    hperm.mem_iff.1 (hLt ▸ List.mem_cons_self h0 t)
  obtain ⟨p0, hp0, hp0eq⟩ := List.mem_map.1 hmemL
  have hub : h0.2 ≤ 1 := by
    rw [← hp0eq]
    exact cosineSim_le_one v p0.2
  have hlow : (id0, (1 : ℝ)) ∈ sortPairs (simPairs index v) := by
    apply hperm.mem_iff.2
    have h1 : ((id0, v).1, cosineSim v (id0, v).2) ∈ simPairs index v :=
      List.mem_map_of_mem _ hmem
    simpa [cosineSim_self hv] using h1
  have h0eq1 : h0.2 = 1 := by
    rw [hLt] at hlow
    rcases List.mem_cons.1 hlow with heq | hmem'
    · rw [← heq]
    · have hsorted := sortPairs_sorted (simPairs index v)
      rw [hLt] at hsorted
      have h2 := (List.pairwise_cons.1 hsorted).1 _ hmem'
      exact le_antisymm hub h2
  refine ⟨_, toNeighbor h0, hok, ?_, h0eq1, ?_⟩
  · rw [hLt, List.take_succ_cons, List.map_cons]
    rfl
  · intro huniq
    have hcs : cosineSim v p0.2 = 1 := by
      have : (p0.1, cosineSim v p0.2).2 = h0.2 := by rw [hp0eq]
      simpa [h0eq1] using this
    have hid := huniq p0 hp0 hcs
    show h0.1 = id0
    rw [← hp0eq]
    exact hid

/-- Counterexample to C8 as stated: the index holds the same vector `[1, 0]`
under `"a_1"` (iterated first) and `"b_2"`; ranking the query `[1, 0]` —
which is exactly the vector stored under `"b_2"` — returns `"a_1"` as the
top match, not `"b_2"`. -/
theorem claim_C8_counterexample :
    compute_similarities [("a_1", [(1:ℝ), 0]), ("b_2", [1, 0])] 5 [1, 0] =
      .ok [⟨"a_1", "a", 1⟩, ⟨"b_2", "b", 1⟩] ∧
    ("b_2", [(1:ℝ), 0]) ∈ [("a_1", [(1:ℝ), 0]), ("b_2", [1, 0])] ∧
    "a_1" ≠ "b_2" := by
  refine ⟨?_, by simp, by decide⟩
  have hok := compute_similarities_ok
    [("a_1", [(1:ℝ), 0]), ("b_2", [1, 0])] 5 [1, 0] (by simp)
  have hcs : cosineSim [(1:ℝ), 0] [1, 0] = 1 :=
    cosineSim_self ⟨1, by simp, one_ne_zero⟩
  have hsim : simPairs [("a_1", [(1:ℝ), 0]), ("b_2", [1, 0])] [1, 0] =
      [("a_1", (1:ℝ)), ("b_2", 1)] := by
    simp [simPairs, hcs]
  have hsort : sortPairs [("a_1", (1:ℝ)), ("b_2", 1)] =
      [("a_1", (1:ℝ)), ("b_2", 1)] :=
    @sortPairs_of_const [("a_1", (1:ℝ)), ("b_2", 1)] 1 (by simp)
  have hb1 : building_of "a_1" = "a" := by decide
  have hb2 : building_of "b_2" = "b" := by decide
  rw [hok, hsim, hsort]
  simp [toNeighbor, hb1, hb2, List.take]

/-- Witness for the amended C8 at a one-entry index. -/
theorem claim_C8_self_similarity_witness :
    ((("b_2", [(1:ℝ), 0]) ∈ [("b_2", [(1:ℝ), 0])]) ∧
      (∃ x ∈ [(1:ℝ), 0], x ≠ 0) ∧
      (∀ p ∈ [("b_2", [(1:ℝ), 0])], p.2.length = [(1:ℝ), 0].length) ∧
      1 ≤ 5) ∧
    (∃ rs m, compute_similarities [("b_2", [(1:ℝ), 0])] 5 [1, 0] = .ok rs ∧
      rs.head? = some m ∧ m.similarity = 1 ∧
      ((∀ p ∈ [("b_2", [(1:ℝ), 0])], cosineSim [1, 0] p.2 = 1 → p.1 = "b_2") →
        m.id = "b_2")) :=
  ⟨⟨by simp, ⟨1, by simp, one_ne_zero⟩, by simp, by decide⟩,
    claim_C8_self_similarity [("b_2", [(1:ℝ), 0])] "b_2" [1, 0] 5
      (by simp) ⟨1, by simp, one_ne_zero⟩ (by simp) (by decide)⟩

/-- C9: the rank-then-classify pipeline is deterministic and mutation-free —
`identify_building` is a pure function of the embedding provider, the
(immutable) index, the thresholds and the image bytes, so two calls on equal
image bytes return equal results. -/
theorem claim_C9_deterministic (embed : List ℕ → List ℝ)
    (index : List (String × List ℝ)) (topK : ℕ) (ct bt : ℝ)
    (img1 img2 : List ℕ) (h : img1 = img2) :
    identify_building embed index topK ct bt img1 =
      identify_building embed index topK ct bt img2 := by
  rw [h]

/-- Witness for C9. -/
theorem claim_C9_deterministic_witness :
    ([] : List ℕ) = [] ∧
    identify_building (fun _ => [1]) [("a_1", [(1:ℝ)])] 5 1 0 [] =
      identify_building (fun _ => [1]) [("a_1", [(1:ℝ)])] 5 1 0 [] :=
  ⟨rfl, claim_C9_deterministic (fun _ => [1]) [("a_1", [(1:ℝ)])] 5 1 0 [] [] rfl⟩

/-! ## The claim theorems about the loader -/

theorem loadLoop_malformed (parseRecord : String → Option (String × List ℚ)) :
    ∀ (lines : List String) (idx : List (String × List ℚ)) (line : String),
      line ∈ lines → line ≠ "" → parseRecord line = none →
      loadLoop parseRecord lines idx = .error .malformed
  | [], idx, line => by
    intro h
    cases h
  | l0 :: rest, idx, line => by
    intro hmem hne hparse
    show (if l0 = "" then loadLoop parseRecord rest idx
      else match parseRecord l0 with
        | none => .error .malformed
        | some r => loadLoop parseRecord rest (dictInsert idx r.1 r.2)) =
      .error .malformed
    by_cases h0 : l0 = ""
    · rw [if_pos h0]
      have hrest : line ∈ rest := by
        rcases List.mem_cons.1 hmem with h | h
        · exact absurd (h.trans h0) hne
        · exact h
      exact loadLoop_malformed parseRecord rest idx line hrest hne hparse
    · rw [if_neg h0]
      rcases List.mem_cons.1 hmem with h | h
      · subst h
        rw [hparse]
      · cases hp : parseRecord l0 with
        | none => rfl
        | some r =>
          exact loadLoop_malformed parseRecord rest _ line h hne hparse

/-- C4 (amended): the loader fails with the unreachable error when the
download fails, and with the malformed error when any non-empty line of the
downloaded text fails to parse — a single malformed record aborts the whole
load, so an `ok` result means every non-empty line parsed.  An *empty*
source, however, loads successfully as an empty index instead of failing
(see the counterexample to the claim as stated). -/
theorem claim_C4_load_errors :
    (∀ parseRecord : String → Option (String × List ℚ),
      load_embeddings_from_gcs parseRecord none = .error .unreachable) ∧
    (∀ (parseRecord : String → Option (String × List ℚ)) (text line : String),
      line ∈ pySplitLines text → line ≠ "" → parseRecord line = none →
      load_embeddings_from_gcs parseRecord (some text) = .error .malformed) ∧
    (∀ parseRecord : String → Option (String × List ℚ),
      load_embeddings_from_gcs parseRecord (some "") = .ok []) :=
  ⟨fun _ => rfl,
    fun parseRecord text line hmem hne hparse =>
      loadLoop_malformed parseRecord (pySplitLines text) [] line hmem hne hparse,
    fun _ => rfl⟩

/-- Counterexample to C4 as stated: an empty (but reachable) source does not
fail with a load error — the loader returns an empty index, even under a
parser that rejects every line. -/
theorem claim_C4_counterexample :
    load_embeddings_from_gcs (fun _ => none) (some "") = .ok [] := rfl

/-- Witness for the amended C4: a one-line text whose line the parser
rejects aborts the load with the malformed error. -/
theorem claim_C4_load_errors_witness :
    ("x" ∈ pySplitLines "x" ∧ "x" ≠ "" ∧
      (fun _ => (none : Option (String × List ℚ))) "x" = none) ∧
    load_embeddings_from_gcs (fun _ => none) (some "x") = .error .malformed :=
  ⟨⟨by decide, by decide, rfl⟩,
    claim_C4_load_errors.2.1 (fun _ => none) "x" "x" (by decide) (by decide) rfl⟩

end HistoriCam
